import Mathlib

/-!
Verification of the generated Rust hyper client request builder/executor
(`modules/openapi-generator/src/main/resources/rust/request.rs`).

The Rust code is shallowly embedded: each Rust function becomes a Lean
definition operating on explicit data.  `HashMap<String, String>` is
modelled as an association list with in-place-update insertion
(`hmInsert`), matching Rust `HashMap::insert` (last write for a key wins,
existing entry keeps its position).  External library calls used by the
code (`serde_json`, `base64::encode`, `url::form_urlencoded`,
`hyper::header::HeaderValue::from_str`, the `http` request builder) are
modelled at their documented interfaces.  Rust panics (`unwrap` on an
error) are made explicit through the `PanicOr` type.
-/

/-- UTF-8 encoding of a single character, as the list of its byte values.
Models Rust `str` byte representation (`s.len()`, `s.bytes()`). -/
def utf8Bytes (c : Char) : List Nat :=
  let n := c.toNat
  if n < 128 then [n]
  else if n < 2048 then [192 + n / 64, 128 + n % 64]
  else if n < 65536 then [224 + n / 4096, 128 + (n / 64) % 64, 128 + n % 64]
  else [240 + n / 262144, 128 + (n / 4096) % 64, 128 + (n / 64) % 64, 128 + n % 64]

/-- The UTF-8 bytes of a string; `(strBytes s).length` models Rust `s.len()`. -/
def strBytes (s : String) : List Nat :=
  (s.data.map utf8Bytes).flatten

/-- Uppercase hexadecimal digit, used by percent-encoding. -/
def hexDigit (n : Nat) : Char :=
  "0123456789ABCDEF".data.getD n '0'

/-- Bytes kept verbatim by `url::form_urlencoded` serialization:
alphanumeric ASCII and `*`, `-`, `.`, `_`. -/
def isUrlSafeByte (b : Nat) : Bool :=
  (48 ≤ b && b ≤ 57) || (65 ≤ b && b ≤ 90) || (97 ≤ b && b ≤ 122) ||
    b == 42 || b == 45 || b == 46 || b == 95

/-- Percent-encoding of one byte per `url::form_urlencoded::byte_serialize`:
space becomes `+`, safe bytes stay, anything else becomes `%XX`. -/
def encByte (b : Nat) : List Char :=
  if b == 32 then ['+']
  else if isUrlSafeByte b then [Char.ofNat b]
  else ['%', hexDigit (b / 16), hexDigit (b % 16)]

/-- URL-form-encoding of a string (over its UTF-8 bytes). -/
def urlEncode (s : String) : String :=
  ⟨((strBytes s).map encByte).flatten⟩

/-- Model of `url::form_urlencoded::Serializer`: `append_pair` for each
entry in order, then `finish`.  Pairs render as `k=v` joined by `&`. -/
def formUrlEncodePairs (ps : List (String × String)) : String :=
  String.intercalate "&" (ps.map fun kv => urlEncode kv.1 ++ "=" ++ urlEncode kv.2)

/-- The standard base64 alphabet used by `base64::encode`. -/
def b64Alphabet : List Char :=
  "ABCDEFGHIJKLMNOPQRSTUVWXYZabcdefghijklmnopqrstuvwxyz0123456789+/".data

/-- Character for a 6-bit group. -/
def b64Char (n : Nat) : Char := b64Alphabet.getD n 'A'

/-- Base64 of a byte list, processed in 3-byte chunks with `=` padding;
models `base64::encode`. -/
def base64Chunks : List Nat → List Char
  | [] => []
  | [a] => [b64Char (a / 4), b64Char (a % 4 * 16), '=', '=']
  | [a, b] => [b64Char (a / 4), b64Char (a % 4 * 16 + b / 16), b64Char (b % 16 * 4), '=']
  | a :: b :: c :: rest =>
      b64Char (a / 4) :: b64Char (a % 4 * 16 + b / 16) ::
        b64Char (b % 16 * 4 + c / 64) :: b64Char (c % 64) :: base64Chunks rest

/-- Model of Rust `base64::encode` applied to the UTF-8 bytes of a string. -/
def base64encode (bytes : List Nat) : String := ⟨base64Chunks bytes⟩

/-- Valid bytes for a `hyper::header::HeaderValue` built from a string:
visible characters and space (byte 32 and up except DEL 127) plus TAB.
Multi-byte UTF-8 characters only contribute bytes 128 and up, which are
accepted, so the check can be stated per character. -/
def isValidHeaderValueChar (c : Char) : Bool :=
  c.toNat == 9 || (decide (32 ≤ c.toNat) && c.toNat != 127)

/-- A string accepted by `HeaderValue::from_str`. -/
def isValidHeaderValueStr (s : String) : Bool :=
  s.data.all isValidHeaderValueChar

/-- Model of `hyper::header::HeaderValue::from_str`: `some` on valid input,
`none` (an error, unwrapped to a panic in the code) otherwise. -/
def headerValueFromStr (s : String) : Option String :=
  if isValidHeaderValueStr s then some s else none

/-- Characters accepted in an `http::header::HeaderName`: ASCII letters and
digits plus `!#$%&~^_.|-` and a few more; uppercase is normalized to
lowercase by the header map. -/
def isValidHeaderNameChar (c : Char) : Bool :=
  c.isAlpha || c.isDigit || "!#$%&~^_.|-+*`".data.contains c

/-- A string accepted as a header name (must be non-empty). -/
def isValidHeaderNameStr (s : String) : Bool :=
  !s.data.isEmpty && s.data.all isValidHeaderNameChar

/-- Association-list lookup by key; models `HashMap::get` observations. -/
def lookupParam (k : String) : List (String × String) → Option String
  | [] => none
  | (k2, v) :: rest => if k2 = k then some v else lookupParam k rest

/-- Model of `HashMap::insert`: update the entry in place when the key is
present (keeping the stored key), append otherwise. -/
def hmInsert (m : List (String × String)) (k v : String) : List (String × String) :=
  match m with
  | [] => [(k, v)]
  | (k2, v2) :: rest => if k2 = k then (k2, v) :: rest else (k2, v2) :: hmInsert rest k v

/-- All keys of an association list are distinct. -/
def distinctKeys : List (String × String) → Bool
  | [] => true
  | (k, _) :: rest => !(rest.any fun kv => kv.1 == k) && distinctKeys rest

/-- JSON values as produced by `serde_json`.  Numbers are kept as their
raw lexeme: no claim under verification inspects numeric values. -/
inductive Json where
  | null
  | bool (b : Bool)
  | num (lexeme : String)
  | str (s : String)
  | arr (elems : List Json)
  | obj (fields : List (String × Json))

/-- JSON whitespace characters. -/
def jsonWs (c : Char) : Bool :=
  c == ' ' || c == '\t' || c == '\n' || c == '\r'

/-- Hexadecimal digit value, for string escapes. -/
def hexVal (c : Char) : Option Nat :=
  if c.isDigit then some (c.toNat - 48)
  else if 'a' ≤ c ∧ c ≤ 'f' then some (c.toNat - 87)
  else if 'A' ≤ c ∧ c ≤ 'F' then some (c.toNat - 55)
  else none

/-- Characters that may continue a JSON number lexeme. -/
def numChar (c : Char) : Bool :=
  c.isDigit || c == '-' || c == '+' || c == '.' || c == 'e' || c == 'E'

/-- Parse the body of a JSON string, after the opening quote.  Supports the
standard escapes and 4-digit `\u` escapes (without surrogate pairing,
which no verified claim exercises). -/
def parseStrBody : Nat → List Char → List Char → Except String (String × List Char)
  | 0, _, _ => .error "recursion limit exceeded"
  | _ + 1, _, [] => .error "EOF while parsing a string"
  | fuel + 1, acc, c :: rest =>
    if c == '"' then .ok (⟨acc.reverse⟩, rest)
    else if c == '\\' then
      match rest with
      | [] => .error "EOF while parsing a string"
      | e :: rest2 =>
        if e == 'n' then parseStrBody fuel ('\n' :: acc) rest2
        else if e == 't' then parseStrBody fuel ('\t' :: acc) rest2
        else if e == 'r' then parseStrBody fuel ('\r' :: acc) rest2
        else if e == 'b' then parseStrBody fuel ('\x08' :: acc) rest2
        else if e == 'f' then parseStrBody fuel ('\x0c' :: acc) rest2
        else if e == '"' || e == '\\' || e == '/' then parseStrBody fuel (e :: acc) rest2
        else if e == 'u' then
          match rest2 with
          | h1 :: h2 :: h3 :: h4 :: rest3 =>
            match hexVal h1, hexVal h2, hexVal h3, hexVal h4 with
            | some a, some b, some c2, some d =>
                parseStrBody fuel (Char.ofNat (a * 4096 + b * 256 + c2 * 16 + d) :: acc) rest3
            | _, _, _, _ => .error "invalid unicode escape"
          | _ => .error "invalid unicode escape"
        else .error "invalid escape"
    else parseStrBody fuel (c :: acc) rest

/-- Check that a literal keyword is a prefix of the input, returning what
follows it. -/
def parseKeyword (kw : List Char) (s : List Char) : Option (List Char) :=
  if kw.isPrefixOf s then some (s.drop kw.length) else none

mutual

/-- Recursive-descent JSON value parser (interface model of `serde_json`
parsing); returns the value and the unconsumed input. -/
def parseVal : Nat → List Char → Except String (Json × List Char)
  | 0, _ => .error "recursion limit exceeded"
  | fuel + 1, s =>
    match s.dropWhile jsonWs with
    | [] => .error "EOF while parsing a value"
    | c :: rest =>
      if c == 'n' then
        match parseKeyword ['u', 'l', 'l'] rest with
        | some rest2 => .ok (.null, rest2)
        | none => .error "expected ident"
      else if c == 't' then
        match parseKeyword ['r', 'u', 'e'] rest with
        | some rest2 => .ok (.bool true, rest2)
        | none => .error "expected ident"
      else if c == 'f' then
        match parseKeyword ['a', 'l', 's', 'e'] rest with
        | some rest2 => .ok (.bool false, rest2)
        | none => .error "expected ident"
      else if c == '"' then
        match parseStrBody (rest.length + 1) [] rest with
        | .ok (sv, rest2) => .ok (.str sv, rest2)
        | .error e => .error e
      else if c == '[' then
        match rest.dropWhile jsonWs with
        | ']' :: rest2 => .ok (.arr [], rest2)
        | _ =>
          match parseArrElems fuel [] rest with
          | .ok (elems, rest2) => .ok (.arr elems, rest2)
          | .error e => .error e
      else if c == '{' then
        match rest.dropWhile jsonWs with
        | '}' :: rest2 => .ok (.obj [], rest2)
        | _ =>
          match parseObjFields fuel [] rest with
          | .ok (fields, rest2) => .ok (.obj fields, rest2)
          | .error e => .error e
      else if c == '-' || c.isDigit then
        .ok (.num ⟨(c :: rest).takeWhile numChar⟩, (c :: rest).dropWhile numChar)
      else .error "expected value"

/-- Parse the remaining elements of a non-empty JSON array. -/
def parseArrElems : Nat → List Json → List Char →
    Except String (List Json × List Char)
  | 0, _, _ => .error "recursion limit exceeded"
  | fuel + 1, acc, s =>
    match parseVal fuel s with
    | .error e => .error e
    | .ok (v, rest) =>
      match rest.dropWhile jsonWs with
      | ',' :: rest2 => parseArrElems fuel (v :: acc) rest2
      | ']' :: rest2 => .ok ((v :: acc).reverse, rest2)
      | _ => .error "expected comma or bracket"

/-- Parse the remaining fields of a non-empty JSON object. -/
def parseObjFields : Nat → List (String × Json) → List Char →
    Except String (List (String × Json) × List Char)
  | 0, _, _ => .error "recursion limit exceeded"
  | fuel + 1, acc, s =>
    match s.dropWhile jsonWs with
    | '"' :: rest =>
      match parseStrBody (rest.length + 1) [] rest with
      | .error e => .error e
      | .ok (key, rest2) =>
        match rest2.dropWhile jsonWs with
        | ':' :: rest3 =>
          match parseVal fuel rest3 with
          | .error e => .error e
          | .ok (v, rest4) =>
            match rest4.dropWhile jsonWs with
            | ',' :: rest5 => parseObjFields fuel ((key, v) :: acc) rest5
            | '}' :: rest5 => .ok (((key, v) :: acc).reverse, rest5)
            | _ => .error "expected comma or brace"
        | _ => .error "expected colon"
    | _ => .error "key must be a string"

end

/-- Model of `serde_json` top-level parsing of a string into a JSON value:
parse one value and require only whitespace to follow. -/
def parseJson (s : String) : Except String Json :=
  match parseVal (2 * s.data.length + 4) s.data with
  | .error e => .error e
  | .ok (v, rest) =>
    if (rest.dropWhile jsonWs).isEmpty then .ok v
    else .error "trailing characters"

/-- Model of the `serde` deserializer for the unit type `()`: it accepts
JSON `null` (this is what `serde_json::from_str::<()>("null")` relies on)
and rejects any other value. -/
def unitFromJson : Json → Except String Unit
  | .null => .ok ()
  | _ => .error "invalid type: expected unit"

/-- Outcome of a Rust computation that may panic: `panicked` models a Rust
panic (such as `unwrap` applied to an `Err`), `ok` a normal return. -/
inductive PanicOr (α : Type) where
  | panicked (msg : String)
  | ok (val : α)
deriving DecidableEq

/-- Sequencing of panicking computations: a panic aborts the chain. -/
def PanicOr.andThen {α β : Type} (x : PanicOr α) (f : α → PanicOr β) : PanicOr β :=
  match x with
  | .panicked m => .panicked m
  | .ok a => f a

/-- The `ApiKey` strategy descriptor from `request.rs`. -/
structure ApiKey where
  in_header : Bool
  in_query : Bool
  param_name : String
deriving DecidableEq

/-- `ApiKey::key`: prepend the configured scheme prefix (if any) to the
key, separated by one space (`format!("\x7b\x7d \x7b\x7d", prefix, key)`). -/
def ApiKey.key (_self : ApiKey) (pfx : Option String) (key : String) : String :=
  match pfx with
  | none => key
  | some p => p ++ " " ++ key

/-- The `Auth` strategy enum from `request.rs`. -/
inductive Auth where
  | none
  | apiKey (k : ApiKey)
  | basic
  | oauth
deriving DecidableEq

/-- The API-key credential held by the configuration (the Rust
`configuration::ApiKey` struct has fields `prefix` and `key`; the prefix
field is called `pfx` here because of Lean parsing constraints). -/
structure ApiKeyConf where
  pfx : Option String
  key : String
deriving DecidableEq

/-- The slice of `configuration::Configuration` consumed by `execute`:
base path, optional user agent and the three optional credentials.  The
transport client is modelled separately (the response is an input of the
response-handling phase). -/
structure Configuration where
  base_path : String
  user_agent : Option String
  api_key : Option ApiKeyConf
  basic_auth : Option (String × Option String)
  oauth_access_token : Option String
deriving DecidableEq

/-- Modelled from the spec: the error taxonomy of the client (the `Error`
enum lives in the generated `client.rs`, outside the sources under
verification).  `UriError` for an unparsable URI, `Serde` for
serialization/deserialization failures, `Hyper` for transport failures,
and `ApiError` carrying the numeric status plus the raw body and, where
possible, its structurally parsed form. -/
inductive Error where
  | UriError (uri : String)
  | Serde (msg : String)
  | Hyper (msg : String)
  | ApiError (code : Nat) (content : Option Json) (raw : String)

/-- The request descriptor struct from `request.rs`. -/
structure Request where
  auth : Auth
  method : String
  path : String
  query_params : List (String × String)
  no_return_type : Bool
  path_params : List (String × String)
  form_params : List (String × String)
  header_params : List (String × String)
  serialized_body : Option String
deriving DecidableEq

/-- `Request::new`: empty parameter maps, no auth, no body, typed return. -/
def Request.new (method : String) (path : String) : Request where
  auth := .none
  method := method
  path := path
  query_params := []
  path_params := []
  form_params := []
  header_params := []
  serialized_body := none
  no_return_type := false

/-- `Request::with_body_param`: serialize the value immediately and store
the text.  The serializer outcome (`serde_json::to_string(&param)`) is the
explicit argument; the Rust code calls `.unwrap()` on it, so a failed
serialization is a panic, not an error return. -/
def Request.with_body_param (r : Request) (serialized : Except String String) :
    PanicOr Request :=
  match serialized with
  | .error e => .panicked e
  | .ok s => .ok { r with serialized_body := some s }

/-- `Request::with_header_param`: insert into the header-parameter map. -/
def Request.with_header_param (r : Request) (basename param : String) : Request :=
  { r with header_params := hmInsert r.header_params basename param }

/-- `Request::with_query_param`: insert into the query-parameter map. -/
def Request.with_query_param (r : Request) (basename param : String) : Request :=
  { r with query_params := hmInsert r.query_params basename param }

/-- `Request::with_path_param`: insert into the path-parameter map. -/
def Request.with_path_param (r : Request) (basename param : String) : Request :=
  { r with path_params := hmInsert r.path_params basename param }

/-- `Request::with_form_param`: insert into the form-parameter map. -/
def Request.with_form_param (r : Request) (basename param : String) : Request :=
  { r with form_params := hmInsert r.form_params basename param }

/-- `Request::returns_nothing`: flag that no response payload is expected. -/
def Request.returns_nothing (r : Request) : Request :=
  { r with no_return_type := true }

/-- `Request::with_auth`: replace the auth strategy. -/
def Request.with_auth (r : Request) (auth : Auth) : Request :=
  { r with auth := auth }

/-- Fuelled scan implementing Rust `str::replace` for a non-empty pattern:
at each position, if the pattern matches, emit the replacement and skip
the match; otherwise keep the character.  One fuel unit is spent per step
and each step consumes at least one character, so `s.length` fuel always
suffices. -/
def replaceAux : Nat → List Char → List Char → List Char → List Char
  | 0, s, _, _ => s
  | _ + 1, [], _, _ => []
  | fuel + 1, c :: rest, pat, rep =>
    if pat.isPrefixOf (c :: rest) then
      rep ++ replaceAux fuel ((c :: rest).drop pat.length) pat rep
    else
      c :: replaceAux fuel rest pat rep

/-- Replace every non-overlapping occurrence of `pat` in `s` (left to
right), for non-empty `pat`. -/
def replaceL (s pat rep : List Char) : List Char :=
  replaceAux s.length s pat rep

/-- Model of Rust `str::replace`.  The empty-pattern case (which inserts
the replacement at every character boundary) is included for fidelity but
never arises here: the code only replaces `\x7bkey\x7d` patterns. -/
def strReplace (s pat rep : String) : String :=
  if pat.data.isEmpty then
    ⟨rep.data ++ s.data.flatMap (fun c => c :: rep.data)⟩
  else ⟨replaceL s.data pat.data rep.data⟩

/-- Path-template resolution from `execute` (lines 117-121): for each
`(k, v)` in the path-parameter map, replace `\x7bk\x7d` by `v` in the
path, in iteration order. -/
def resolvePath (path : String) (params : List (String × String)) : String :=
  params.foldl (fun p kv => strReplace p ("\x7b" ++ kv.1 ++ "\x7d") kv.2) path

/-- Substring test used to state occurrence properties of the resolved
path (for non-empty patterns). -/
def containsSub (s pat : List Char) : Bool :=
  pat.isPrefixOf s ||
    match s with
    | [] => false
    | _ :: rest => containsSub rest pat

/-- Substring test on strings. -/
def containsSubstr (s pat : String) : Bool :=
  containsSub s.data pat.data

/-- The `Content-Type` constant for form bodies. -/
def MIME_APPLICATION_WWW_FORM_URLENCODED : String := "application/x-www-form-urlencoded"

/-- The `Content-Type` constant for JSON bodies. -/
def MIME_APPLICATION_JSON : String := "application/json"

/-- The panic message of `Result::unwrap` on an error (the payload is
irrelevant to the claims). -/
def unwrapErrMsg : String := "called Result::unwrap on an Err value"

/-- The `for (k, v) in self.query_params \x7b query_string.append_pair(..) \x7d`
loop: the serializer accumulates the pairs in iteration order. -/
def qpInit (r : Request) : List (String × String) :=
  r.query_params.foldl (fun l kv => l ++ [kv]) []

/-- The `for (k, v) in self.header_params \x7b raw_headers.insert(k, v) \x7d`
loop: copy the header parameters into the raw-header map. -/
def rhInit (r : Request) : List (String × String) :=
  r.header_params.foldl (fun m kv => hmInsert m kv.1 kv.2) []

/-- The `username:password` (or bare `username`) string that Basic auth
base64-encodes (lines 147-151). -/
def basicUserPassword (username : String) (pw : Option String) : String :=
  match pw with
  | some password => username ++ ":" ++ password
  | none => username

/-- The auth dispatch of `execute` (lines 131-166).  Takes the query-pair
list and raw-header map accumulated so far; returns their updated forms
plus the strongly-typed header map (which only ever receives
`AUTHORIZATION`, stored lowercased as in `HeaderMap`).  The two
`HeaderValue::from_str(..).unwrap()` calls surface as panics. -/
def applyAuth (auth : Auth) (conf : Configuration)
    (qp rh : List (String × String)) :
    PanicOr (List (String × String) × List (String × String) × List (String × String)) :=
  match auth with
  | .none => .ok (qp, rh, [])
  | .apiKey apikey =>
    match conf.api_key with
    | Option.none => .ok (qp, rh, [])
    | some keyConf =>
      let val := apikey.key keyConf.pfx keyConf.key
      let qp2 := if apikey.in_query then qp ++ [(apikey.param_name, val)] else qp
      let rh2 := if apikey.in_header then hmInsert rh apikey.param_name val else rh
      .ok (qp2, rh2, [])
  | .basic =>
    match conf.basic_auth with
    | Option.none => .ok (qp, rh, [])
    | some (username, pw) =>
      let raw := "Basic " ++ base64encode (strBytes (basicUserPassword username pw))
      match headerValueFromStr raw with
      | Option.none => .panicked unwrapErrMsg
      | some hv => .ok (qp, rh, hmInsert [] "authorization" hv)
  | .oauth =>
    match conf.oauth_access_token with
    | Option.none => .ok (qp, rh, [])
    | some token =>
      let raw := "Bearer " ++ token
      match headerValueFromStr raw with
      | Option.none => .panicked unwrapErrMsg
      | some hv => .ok (qp, rh, hmInsert [] "authorization" hv)

/-- The request URI string (lines 168-174): base path, resolved path, and
the encoded query string after `?` when non-empty. -/
def uriString (conf : Configuration) (r : Request) (qp2 : List (String × String)) : String :=
  let qs := formUrlEncodePairs qp2
  conf.base_path ++ resolvePath r.path r.path_params ++ (if qs = "" then "" else "?" ++ qs)

/-- Interface model of `hyper::Uri` parsing: the claims under verification
do not depend on URI validation details, so only the empty string is
rejected. -/
def parseUri (s : String) : Option String :=
  if s.data.isEmpty then none else some s

/-- A `BuiltRequest` is the fully assembled request handed to the
transport: headers are listed in the order the `http` request builder
received them (builder `header` calls append; names are lowercased as in
`HeaderMap`). -/
structure BuiltRequest where
  method : String
  uri : String
  headers : List (String × String)
  body : String
deriving DecidableEq

/-- The optional `User-Agent` header (lines 188-190), applied first. -/
def uaHeaders (conf : Configuration) : List (String × String) :=
  match conf.user_agent with
  | some ua => [("user-agent", ua)]
  | none => []

/-- Validity of everything the `http` builder receives as raw strings: the
user-agent value and the raw header names/values.  When any of them is
invalid the builder records an error and the final
`.body(..).unwrap()` panics. -/
def headersOk (conf : Configuration) (rh : List (String × String)) : Bool :=
  (match conf.user_agent with
   | some ua => isValidHeaderValueStr ua
   | none => true) &&
  rh.all (fun kv => isValidHeaderNameStr kv.1 && isValidHeaderValueStr kv.2)

/-- ASCII lowercasing of one character, as `http::header::HeaderName`
normalization performs it. -/
def asciiLower (c : Char) : Char :=
  if 'A' ≤ c ∧ c ≤ 'Z' then Char.ofNat (c.toNat + 32) else c

/-- ASCII lowercasing of a header name. -/
def lowerHeaderName (s : String) : String := ⟨s.data.map asciiLower⟩

/-- The header sequence produced by lines 187-201: user agent first, then
the strongly-typed headers, then the raw headers (names lowercased). -/
def mergedHeaders (conf : Configuration) (typed rh2 : List (String × String)) :
    List (String × String) :=
  uaHeaders conf ++ typed ++ rh2.map (fun kv => (lowerHeaderName kv.1, kv.2))

/-- The body-selection branch of lines 203-223, headers part: form params
(when non-empty) force a form content type; otherwise a serialized body
gives JSON content type and byte-length content length; otherwise content
length 0. -/
def bodyHeaders (r : Request) : List (String × String) :=
  if r.form_params.length > 0 then
    [("content-type", MIME_APPLICATION_WWW_FORM_URLENCODED)]
  else
    match r.serialized_body with
    | some body => [("content-type", MIME_APPLICATION_JSON),
                    ("content-length", toString (strBytes body).length)]
    | none => [("content-length", "0")]

/-- The body-selection branch of lines 203-223, body part. -/
def bodyString (r : Request) : String :=
  if r.form_params.length > 0 then formUrlEncodePairs r.form_params
  else
    match r.serialized_body with
    | some body => body
    | none => ""

/-- Assemble the final request value from the descriptor, the parsed URI
and the merged headers. -/
def mkBuilt (r : Request) (uri : String) (merged : List (String × String)) : BuiltRequest where
  method := r.method
  uri := uri
  headers := merged ++ bodyHeaders r
  body := bodyString r

/-- The assembly phase of `Request::execute` (lines 111-223): resolve the
path, copy header and query parameters, apply auth, build and parse the
URI, merge headers and select the body.  Returns a panic (unwrapped
failure), a `UriError`, or the assembled request. -/
def Request.build (r : Request) (conf : Configuration) :
    PanicOr (Except Error BuiltRequest) :=
  match applyAuth r.auth conf (qpInit r) (rhInit r) with
  | .panicked m => .panicked m
  | .ok (qp2, rh2, typed) =>
    match parseUri (uriString conf r qp2) with
    | Option.none => .ok (.error (.UriError (uriString conf r qp2)))
    | some uri =>
      if headersOk conf rh2 then
        .ok (.ok (mkBuilt r uri (mergedHeaders conf typed rh2)))
      else
        .panicked unwrapErrMsg

/-- `StatusCode::is_success`: the 2xx range. -/
def isSuccess (status : Nat) : Bool :=
  200 ≤ status && status < 300

/-- Modelled from the spec: `Error::from((StatusCode, &[u8]))` (defined in
the generated `client.rs`, outside the sources under verification) builds
an `ApiError` carrying the numeric status, the structurally parsed body
where possible, and the raw body. -/
def errorFromResponse (status : Nat) (body : String) : Error :=
  .ApiError status (parseJson body).toOption body

/-- `serde_json::from_str` for a target type with decoder `dec`: parse the
text into a JSON value, then convert. -/
def serdeFromStr {U : Type} (dec : Json → Except String U) (s : String) :
    Except String U :=
  match parseJson s with
  | .error e => .error e
  | .ok j => dec j

/-- The response phase of `Request::execute` (lines 225-258): a non-2xx
status short-circuits to the API error; a 2xx status parses `"null"`
instead of the body when `no_return_type` is set, and the body otherwise;
parse failures become `Serde` errors. -/
def handleResponse {U : Type} (no_ret_type : Bool) (dec : Json → Except String U)
    (status : Nat) (body : String) : Except Error U :=
  if isSuccess status then
    match (if no_ret_type then serdeFromStr dec "null" else serdeFromStr dec body) with
    | .ok u => .ok u
    | .error e => .error (.Serde e)
  else
    .error (errorFromResponse status body)

/-- `Request::execute`, end to end: assemble the request and process the
transport response `(status, respBody)`.  `dec` is the deserializer of the
caller-chosen target type `U`. -/
def Request.execute {U : Type} (r : Request) (conf : Configuration)
    (dec : Json → Except String U) (status : Nat) (respBody : String) :
    PanicOr (Except Error U) :=
  match r.build conf with
  | .panicked m => .panicked m
  | .ok (.error e) => .ok (.error e)
  | .ok (.ok _req) => .ok (handleResponse r.no_return_type dec status respBody)

/-! ### Lemmas about the association-list map model -/

theorem hmInsert_hmInsert_same (m : List (String × String)) (k a b : String) :
    hmInsert (hmInsert m k a) k b = hmInsert m k b := by
  induction m with
  | nil => simp [hmInsert]
  | cons hd tl ih =>
    obtain ⟨k2, v2⟩ := hd
    by_cases h : k2 = k
    · simp [hmInsert, h]
    · simp [hmInsert, h, ih]

theorem lookupParam_hmInsert (m : List (String × String)) (k v x : String) :
    lookupParam x (hmInsert m k v)
      = if k = x then some v else lookupParam x m := by
  induction m with
  | nil => simp [hmInsert, lookupParam]
  | cons hd tl ih =>
    obtain ⟨k0, v0⟩ := hd
    by_cases h : k0 = k
    · subst h
      by_cases hx : k0 = x <;> simp [hmInsert, lookupParam, hx]
    · by_cases hx : k0 = x
      · subst hx
        have hne : ¬ k = k0 := fun hh => h (hh ▸ rfl)
        simp [hmInsert, if_neg h, lookupParam, if_neg hne]
      · simp [hmInsert, h, lookupParam, hx, ih]

theorem lookupParam_hmInsert_swap (m : List (String × String)) (k1 k2 v1 v2 x : String)
    (h : k1 ≠ k2) :
    lookupParam x (hmInsert (hmInsert m k1 v1) k2 v2)
      = lookupParam x (hmInsert (hmInsert m k2 v2) k1 v1) := by
  simp only [lookupParam_hmInsert]
  by_cases h1 : k1 = x
  · have h2 : ¬ k2 = x := fun hh => h (by rw [h1, hh])
    simp [h1, h2]
  · simp [h1]

/-! ### Lemmas about the replace scan -/

/-- Characters that are not braces. -/
def braceFreeChar (c : Char) : Bool := c != '{' && c != '}'

/-- Character lists with no brace characters. -/
def braceFreeL (s : List Char) : Bool := s.all braceFreeChar

/-- Strings with no brace characters. -/
def braceFreeStr (s : String) : Bool := braceFreeL s.data

theorem replaceAux_nil (fuel : Nat) (pat rep : List Char) :
    replaceAux fuel [] pat rep = [] := by
  cases fuel <;> rfl

theorem replaceAux_fuel (pat rep : List Char) (hp : pat ≠ []) :
    ∀ (f1 : Nat) (s : List Char) (f2 : Nat), s.length ≤ f1 → s.length ≤ f2 →
      replaceAux f1 s pat rep = replaceAux f2 s pat rep := by
  intro f1
  induction f1 with
  | zero =>
    intro s f2 h1 _
    have hs : s = [] := List.eq_nil_of_length_eq_zero (Nat.le_zero.mp h1)
    subst hs
    simp [replaceAux_nil]
  | succ f ih =>
    intro s f2 h1 h2
    cases s with
    | nil => simp [replaceAux_nil]
    | cons c rest =>
      cases f2 with
      | zero => simp at h2
      | succ f2n =>
        have hplen : 1 ≤ pat.length := List.length_pos.mpr hp
        simp only [replaceAux]
        by_cases hpre : pat.isPrefixOf (c :: rest) = true
        · simp only [hpre, if_true]
          congr 1
          apply ih
          · simp only [List.length_drop, List.length_cons]
            have := Nat.le_of_succ_le_succ h1
            omega
          · simp only [List.length_drop, List.length_cons]
            have := Nat.le_of_succ_le_succ h2
            omega
        · simp only [Bool.not_eq_true] at hpre
          simp only [hpre, if_false, Bool.false_eq_true]
          congr 1
          exact ih rest f2n (Nat.le_of_succ_le_succ h1) (Nat.le_of_succ_le_succ h2)

theorem isPrefixOf_self_append (p t : List Char) :
    p.isPrefixOf (p ++ t) = true := by
  induction p with
  | nil => simp [List.isPrefixOf]
  | cons c p2 ih => simp [List.isPrefixOf, ih]

theorem replaceL_cons_not (c : Char) (rest pat rep : List Char)
    (h : pat.isPrefixOf (c :: rest) = false) :
    replaceL (c :: rest) pat rep = c :: replaceL rest pat rep := by
  simp [replaceL, replaceAux, h]

theorem replaceL_match (p0 : Char) (pat2 t rep : List Char) :
    replaceL ((p0 :: pat2) ++ t) (p0 :: pat2) rep
      = rep ++ replaceL t (p0 :: pat2) rep := by
  have hpre : (p0 :: pat2).isPrefixOf ((p0 :: pat2) ++ t) = true :=
    isPrefixOf_self_append _ _
  have hdrop : ((p0 :: pat2) ++ t).drop (p0 :: pat2).length = t := List.drop_left _ _
  show replaceAux ((p0 :: pat2) ++ t).length ((p0 :: pat2) ++ t) (p0 :: pat2) rep = _
  have hlen : ((p0 :: pat2) ++ t).length = (pat2.length + t.length) + 1 := by
    simp only [List.length_append, List.length_cons]
    omega
  rw [hlen]
  show (if (p0 :: pat2).isPrefixOf (p0 :: (pat2 ++ t)) = true then
      rep ++ replaceAux (pat2.length + t.length) ((p0 :: (pat2 ++ t)).drop (p0 :: pat2).length)
        (p0 :: pat2) rep
    else p0 :: replaceAux (pat2.length + t.length) (pat2 ++ t) (p0 :: pat2) rep) = _
  rw [show (p0 :: (pat2 ++ t)) = ((p0 :: pat2) ++ t) from rfl, hpre, if_pos rfl, hdrop]
  congr 1
  exact replaceAux_fuel _ rep (by simp) _ t _ (by omega) (le_refl _)

theorem head_not_prefixOf (c : Char) (rest p : List Char) (h : c ≠ '{') :
    (('{' :: p).isPrefixOf (c :: rest)) = false := by
  simp only [List.isPrefixOf, Bool.and_eq_false_iff]
  left
  exact beq_eq_false_iff_ne.mpr (fun hh => h hh.symm)

theorem replaceL_skip (s t p rep : List Char) (hs : braceFreeL s = true) :
    replaceL (s ++ t) ('{' :: p) rep = s ++ replaceL t ('{' :: p) rep := by
  induction s with
  | nil => simp
  | cons c s2 ih =>
    have hc : braceFreeChar c = true ∧ braceFreeL s2 = true := by
      simpa [braceFreeL] using hs
    have hcne : c ≠ '{' := by
      have := hc.1
      simp [braceFreeChar] at this
      exact this.1
    rw [List.cons_append,
        replaceL_cons_not _ _ _ _ (head_not_prefixOf c (s2 ++ t) p hcne), ih hc.2,
        List.cons_append]

theorem brace_notin_braceFreeL (s : List Char) (c : Char) (hs : braceFreeL s = true)
    (hc : c ∈ s) : c ≠ '{' ∧ c ≠ '}' := by
  have := (List.all_eq_true.mp hs) c hc
  simp [braceFreeChar] at this
  exact this

theorem braceFreeL_cons (c : Char) (s : List Char) (h : braceFreeL (c :: s) = true) :
    braceFreeChar c = true ∧ braceFreeL s = true := by
  simpa [braceFreeL] using h

theorem key_not_prefixOf (k k2 t : List Char) (hk : braceFreeL k = true)
    (hk2 : braceFreeL k2 = true) (hne : k ≠ k2) :
    ((k ++ ['}']).isPrefixOf (k2 ++ ('}' :: t))) = false := by
  induction k generalizing k2 with
  | nil =>
    cases k2 with
    | nil => exact absurd rfl hne
    | cons b k2t =>
      have hb : b ≠ '}' :=
        (brace_notin_braceFreeL _ b hk2 (List.mem_cons_self _ _)).2
      simp only [List.nil_append, List.cons_append, List.isPrefixOf,
        Bool.and_eq_false_iff]
      left
      exact beq_eq_false_iff_ne.mpr (fun hh => hb hh.symm)
  | cons a kt ih =>
    cases k2 with
    | nil =>
      have ha : a ≠ '}' :=
        (brace_notin_braceFreeL _ a hk (List.mem_cons_self _ _)).2
      simp only [List.cons_append, List.nil_append, List.isPrefixOf,
        Bool.and_eq_false_iff]
      left
      exact beq_eq_false_iff_ne.mpr ha
    | cons b k2t =>
      by_cases hab : a = b
      · subst hab
        have hkt := (braceFreeL_cons _ _ hk).2
        have hk2t := (braceFreeL_cons _ _ hk2).2
        have hnet : kt ≠ k2t := fun hh => hne (by rw [hh])
        simp only [List.cons_append, List.isPrefixOf, Bool.and_eq_false_iff]
        right
        exact ih k2t hkt hk2t hnet
      · simp only [List.cons_append, List.isPrefixOf, Bool.and_eq_false_iff]
        left
        exact beq_eq_false_iff_ne.mpr hab

/-! ### Path-template tokenization

A path template is well formed when it splits into brace-free literal
chunks and `\x7bkey\x7d` placeholders with brace-free keys; OpenAPI path
templates have this shape.  Substitution on well-formed templates is
characterized token-wise. -/

/-- One token of a path template: a literal chunk or a placeholder. -/
inductive PathTok where
  | lit (s : String)
  | ph (k : String)
deriving DecidableEq

/-- Render a token list back into the template text. -/
def renderToks : List PathTok → List Char
  | [] => []
  | .lit s :: ts => s.data ++ renderToks ts
  | .ph k :: ts => '{' :: (k.data ++ ('}' :: renderToks ts))

/-- Render a token list as a string. -/
def renderPath (ts : List PathTok) : String := ⟨renderToks ts⟩

/-- Well-formedness of one token: its text contains no braces. -/
def tokWF : PathTok → Bool
  | .lit s => braceFreeStr s
  | .ph k => braceFreeStr k

/-- Well-formedness of a token list. -/
def wfToks (ts : List PathTok) : Bool := ts.all tokWF

/-- Substitute a single key-value pair in one token. -/
def substTok1 (k v : String) : PathTok → PathTok
  | .lit s => .lit s
  | .ph k2 => if k2 = k then .lit v else .ph k2

/-- Substitute a whole parameter map in one token (first binding of the
key wins, as in map lookup). -/
def substTokAll (ps : List (String × String)) : PathTok → PathTok
  | .lit s => .lit s
  | .ph k =>
    match lookupParam k ps with
    | some v => .lit v
    | none => .ph k

/-- Substitute a parameter map across a token list. -/
def substToks (ps : List (String × String)) (ts : List PathTok) : List PathTok :=
  ts.map (substTokAll ps)

theorem ph_head_not_prefixOf (k k2 t : List Char) (hk : braceFreeL k = true)
    (hk2 : braceFreeL k2 = true) (hne : k ≠ k2) :
    (('{' :: (k ++ ['}'])).isPrefixOf ('{' :: (k2 ++ ('}' :: t)))) = false := by
  simp only [List.isPrefixOf, Bool.and_eq_false_iff]
  right
  exact key_not_prefixOf k k2 t hk hk2 hne

theorem replaceL_render (k v : String) (hk : braceFreeStr k = true)
    (_hv : braceFreeStr v = true) :
    ∀ ts : List PathTok, wfToks ts = true →
      replaceL (renderToks ts) ('{' :: (k.data ++ ['}'])) v.data
        = renderToks (ts.map (substTok1 k v)) := by
  intro ts
  induction ts with
  | nil =>
    intro _
    simp [renderToks, replaceL, replaceAux]
  | cons t ts2 ih =>
    intro hwf
    have hts2 : wfToks ts2 = true := by
      have h2 := hwf
      simp [wfToks] at h2
      exact List.all_eq_true.mpr h2.2
    have htok : tokWF t = true := by
      have := hwf
      simp [wfToks] at this
      exact this.1
    cases t with
    | lit s =>
      have hs : braceFreeL s.data = true := by simpa [tokWF, braceFreeStr] using htok
      show replaceL (s.data ++ renderToks ts2) _ _ = _
      rw [replaceL_skip _ _ _ _ hs, ih hts2]
      rfl
    | ph k2 =>
      have hk2 : braceFreeL k2.data = true := by simpa [tokWF, braceFreeStr] using htok
      by_cases hkk : k2 = k
      · subst hkk
        show replaceL ('{' :: (k2.data ++ ('}' :: renderToks ts2))) _ _ = _
        have hshape : '{' :: (k2.data ++ ('}' :: renderToks ts2))
            = ('{' :: (k2.data ++ ['}'])) ++ renderToks ts2 := by
          simp
        rw [hshape, replaceL_match, ih hts2]
        simp [renderToks, substTok1]
      · have hne : k.data ≠ k2.data := fun hd => hkk (String.ext hd).symm
        show replaceL ('{' :: (k2.data ++ ('}' :: renderToks ts2))) _ _ = _
        rw [replaceL_cons_not _ _ _ _
            (ph_head_not_prefixOf k.data k2.data (renderToks ts2) hk hk2 hne)]
        rw [replaceL_skip k2.data ('}' :: renderToks ts2) _ _ hk2]
        rw [replaceL_cons_not '}' (renderToks ts2) _ _
            (head_not_prefixOf '}' (renderToks ts2) _ (by decide))]
        rw [ih hts2]
        simp [substTok1, hkk, renderToks]

theorem pat_data (k : String) :
    ("\x7b" ++ k ++ "\x7d").data = '{' :: (k.data ++ ['}']) := by
  simp [String.data_append]

theorem strReplace_render (k v : String) (hk : braceFreeStr k = true)
    (hv : braceFreeStr v = true) (ts : List PathTok) (hwf : wfToks ts = true) :
    strReplace (renderPath ts) ("\x7b" ++ k ++ "\x7d") v
      = renderPath (ts.map (substTok1 k v)) := by
  have hdata := pat_data k
  rw [strReplace, hdata]
  simp only [List.isEmpty_cons, Bool.false_eq_true, if_false]
  show String.mk (replaceL (renderToks ts) ('{' :: (k.data ++ ['}'])) v.data) = _
  rw [replaceL_render k v hk hv ts hwf]
  rfl

theorem wfToks_map_substTok1 (k v : String) (hv : braceFreeStr v = true)
    (ts : List PathTok) (hwf : wfToks ts = true) :
    wfToks (ts.map (substTok1 k v)) = true := by
  have hall := List.all_eq_true.mp hwf
  apply List.all_eq_true.mpr
  intro t ht
  obtain ⟨t0, ht0, rfl⟩ := List.mem_map.mp ht
  have htok := hall t0 ht0
  cases t0 with
  | lit s => simpa [substTok1] using htok
  | ph k2 =>
    by_cases hkk : k2 = k
    · simp [substTok1, hkk, tokWF, hv]
    · simpa [substTok1, hkk] using htok

theorem resolvePath_render :
    ∀ (ps : List (String × String)) (ts : List PathTok), wfToks ts = true →
      (∀ kv ∈ ps, braceFreeStr kv.1 = true ∧ braceFreeStr kv.2 = true) →
      resolvePath (renderPath ts) ps
        = renderPath (ps.foldl (fun acc kv => acc.map (substTok1 kv.1 kv.2)) ts) := by
  intro ps
  induction ps with
  | nil =>
    intro ts _ _
    rfl
  | cons kv rest ih =>
    intro ts hwf hps
    obtain ⟨k, v⟩ := kv
    have h1 := hps (k, v) (List.mem_cons_self _ _)
    have hrest : ∀ kv2 ∈ rest, braceFreeStr kv2.1 = true ∧ braceFreeStr kv2.2 = true :=
      fun kv2 h2 => hps kv2 (List.mem_cons_of_mem _ h2)
    show resolvePath (strReplace (renderPath ts) ("\x7b" ++ k ++ "\x7d") v) rest = _
    rw [strReplace_render k v h1.1 h1.2 ts hwf]
    exact ih _ (wfToks_map_substTok1 k v h1.2 ts hwf) hrest

theorem substTokAll_nil (t : PathTok) : substTokAll [] t = t := by
  cases t <;> simp [substTokAll, lookupParam]

theorem substTokAll_cons (k v : String) (rest : List (String × String)) (t : PathTok) :
    substTokAll rest (substTok1 k v t) = substTokAll ((k, v) :: rest) t := by
  cases t with
  | lit s => simp [substTok1, substTokAll]
  | ph k2 =>
    by_cases hkk : k2 = k
    · subst hkk
      simp [substTok1, substTokAll, lookupParam]
    · have hkk2 : ¬ k = k2 := fun hh => hkk hh.symm
      simp [substTok1, substTokAll, hkk, lookupParam, hkk2]

theorem substToks_nil (ts : List PathTok) : substToks [] ts = ts := by
  induction ts with
  | nil => rfl
  | cons t ts2 ih =>
    show substTokAll [] t :: substToks [] ts2 = t :: ts2
    rw [substTokAll_nil, ih]

theorem foldl_substTok1_eq :
    ∀ (ps : List (String × String)) (ts : List PathTok),
      ps.foldl (fun acc kv => acc.map (substTok1 kv.1 kv.2)) ts = substToks ps ts := by
  intro ps
  induction ps with
  | nil =>
    intro ts
    exact (substToks_nil ts).symm
  | cons kv rest ih =>
    intro ts
    obtain ⟨k, v⟩ := kv
    show rest.foldl _ (ts.map (substTok1 k v)) = _
    rw [ih]
    show (ts.map (substTok1 k v)).map (substTokAll rest)
      = ts.map (substTokAll ((k, v) :: rest))
    rw [List.map_map]
    exact List.map_congr_left (fun t _ => substTokAll_cons k v rest t)

theorem resolvePath_substToks (ps : List (String × String)) (ts : List PathTok)
    (hwf : wfToks ts = true)
    (hps : ∀ kv ∈ ps, braceFreeStr kv.1 = true ∧ braceFreeStr kv.2 = true) :
    resolvePath (renderPath ts) ps = renderPath (substToks ps ts) := by
  rw [resolvePath_render ps ts hwf hps, foldl_substTok1_eq]

theorem containsSub_nil_pat (pat : List Char) (hp : pat ≠ []) :
    containsSub [] pat = false := by
  cases pat with
  | nil => exact absurd rfl hp
  | cons c p => simp [containsSub, List.isPrefixOf]

theorem containsSub_cons (c : Char) (rest pat : List Char) :
    containsSub (c :: rest) pat
      = (pat.isPrefixOf (c :: rest) || containsSub rest pat) := rfl

theorem containsSub_skip (s t p : List Char) (hs : braceFreeL s = true) :
    containsSub (s ++ t) ('{' :: p) = containsSub t ('{' :: p) := by
  induction s with
  | nil => rfl
  | cons c s2 ih =>
    have hc := braceFreeL_cons c s2 hs
    have hcne : c ≠ '{' := by
      have h1 := hc.1
      simp [braceFreeChar] at h1
      exact h1.1
    rw [List.cons_append, containsSub_cons,
        head_not_prefixOf c (s2 ++ t) p hcne, ih hc.2]
    simp

theorem containsSub_render_none (k : String) (hk : braceFreeStr k = true) :
    ∀ ts : List PathTok, wfToks ts = true → (∀ t ∈ ts, t ≠ .ph k) →
      containsSub (renderToks ts) ('{' :: (k.data ++ ['}'])) = false := by
  intro ts
  induction ts with
  | nil =>
    intro _ _
    exact containsSub_nil_pat _ (by simp)
  | cons t ts2 ih =>
    intro hwf hnoph
    have hts2 : wfToks ts2 = true := by
      have h2 := hwf
      simp [wfToks] at h2
      exact List.all_eq_true.mpr h2.2
    have htok : tokWF t = true := by
      have h2 := hwf
      simp [wfToks] at h2
      exact h2.1
    have hnoph2 : ∀ t2 ∈ ts2, t2 ≠ .ph k :=
      fun t2 h2 => hnoph t2 (List.mem_cons_of_mem _ h2)
    cases t with
    | lit s =>
      have hs : braceFreeL s.data = true := by simpa [tokWF, braceFreeStr] using htok
      show containsSub (s.data ++ renderToks ts2) _ = false
      rw [containsSub_skip _ _ _ hs]
      exact ih hts2 hnoph2
    | ph k2 =>
      have hk2 : braceFreeL k2.data = true := by simpa [tokWF, braceFreeStr] using htok
      have hkk : k ≠ k2 := fun hh => (hnoph (.ph k2) (List.mem_cons_self _ _)) (by rw [hh])
      have hne : k.data ≠ k2.data := fun hd => hkk (String.ext hd)
      show containsSub ('{' :: (k2.data ++ ('}' :: renderToks ts2))) _ = false
      rw [containsSub_cons, ph_head_not_prefixOf k.data k2.data _ hk hk2 hne]
      simp only [Bool.false_or]
      rw [containsSub_skip _ _ _ hk2, containsSub_cons,
          head_not_prefixOf '}' _ _ (by decide)]
      simp only [Bool.false_or]
      exact ih hts2 hnoph2

theorem distinctKeys_pairwise :
    ∀ ps : List (String × String), distinctKeys ps = true →
      ps.Pairwise (fun a b => a.1 ≠ b.1) := by
  intro ps
  induction ps with
  | nil => intro _; exact List.Pairwise.nil
  | cons kv rest ih =>
    intro hd
    simp only [distinctKeys, Bool.and_eq_true, Bool.not_eq_true] at hd
    refine List.Pairwise.cons ?_ (ih hd.2)
    intro b hb he
    have : rest.any (fun kv2 => kv2.1 == kv.1) = true :=
      List.any_eq_true.mpr ⟨b, hb, beq_iff_eq.mpr he.symm⟩
    rw [this] at hd
    exact absurd hd.1 (by simp)

theorem lookupParam_perm {ps ps2 : List (String × String)} (h : ps.Perm ps2)
    (hd : ps.Pairwise (fun a b => a.1 ≠ b.1)) (x : String) :
    lookupParam x ps = lookupParam x ps2 := by
  induction h with
  | nil => rfl
  | cons a h2 ih =>
    obtain ⟨k0, v0⟩ := a
    show (if k0 = x then some v0 else _) = (if k0 = x then some v0 else _)
    by_cases hx : k0 = x
    · rw [if_pos hx, if_pos hx]
    · simp only [hx, if_false]
      exact ih (List.Pairwise.sublist (List.sublist_cons_self _ _) hd)
  | swap a b l =>
    obtain ⟨ka, va⟩ := a
    obtain ⟨kb, vb⟩ := b
    have hab : kb ≠ ka :=
      (List.pairwise_cons.mp hd).1 (ka, va) (List.mem_cons_self _ _)
    show (if kb = x then some vb else if ka = x then some va else lookupParam x l)
      = (if ka = x then some va else if kb = x then some vb else lookupParam x l)
    by_cases hbx : kb = x
    · have hax : ¬ ka = x := fun hh => hab (by rw [hbx, hh])
      simp [hbx, hax]
    · by_cases hax : ka = x <;> simp [hbx, hax]
  | trans h1 h2 ih1 ih2 =>
    have hmid := (List.Perm.pairwise_iff
      (fun hne he => hne he.symm) h1).mp hd
    exact (ih1 hd).trans (ih2 hmid)

/-! ### Validity of the computed Authorization header values -/

theorem b64Char_valid (n : Nat) : isValidHeaderValueChar (b64Char n) = true := by
  by_cases h : n < 64
  · exact (by decide : ∀ m : Fin 64, isValidHeaderValueChar (b64Char m.val) = true) ⟨n, h⟩
  · have hlen : b64Alphabet.length = 64 := by decide
    have hle : b64Alphabet.length ≤ n := by omega
    rw [b64Char, List.getD_eq_default _ _ hle]
    decide

theorem base64Chunks_valid :
    ∀ (bs : List Nat) (c : Char), c ∈ base64Chunks bs →
      isValidHeaderValueChar c = true
  | [], c, hc => by simp [base64Chunks] at hc
  | [a], c, hc => by
    simp only [base64Chunks, List.mem_cons, List.not_mem_nil, or_false] at hc
    rcases hc with h | h | h | h <;> subst h <;>
      first | exact b64Char_valid _ | decide
  | [a, b], c, hc => by
    simp only [base64Chunks, List.mem_cons, List.not_mem_nil, or_false] at hc
    rcases hc with h | h | h | h <;> subst h <;>
      first | exact b64Char_valid _ | decide
  | a :: b :: d :: rest, c, hc => by
    simp only [base64Chunks, List.mem_cons] at hc
    rcases hc with h | h | h | h | h
    · subst h; exact b64Char_valid _
    · subst h; exact b64Char_valid _
    · subst h; exact b64Char_valid _
    · subst h; exact b64Char_valid _
    · exact base64Chunks_valid rest c h

theorem basic_header_valid (bs : List Nat) :
    isValidHeaderValueStr ("Basic " ++ base64encode bs) = true := by
  apply List.all_eq_true.mpr
  intro c hc
  rw [String.data_append] at hc
  rcases List.mem_append.mp hc with h | h
  · simp only [List.mem_cons] at h
    rcases h with h | h | h | h | h | h | h <;> first | (subst h; decide) | simp at h
  · exact base64Chunks_valid bs c h

/-! ### Inversion of the assembly phase -/

theorem build_ok_elim {r : Request} {conf : Configuration} {req : BuiltRequest}
    (h : r.build conf = .ok (.ok req)) :
    ∃ qp2 rh2 typed uri,
      applyAuth r.auth conf (qpInit r) (rhInit r) = .ok (qp2, rh2, typed) ∧
      parseUri (uriString conf r qp2) = some uri ∧
      headersOk conf rh2 = true ∧
      req = mkBuilt r uri (mergedHeaders conf typed rh2) := by
  unfold Request.build at h
  split at h
  · simp at h
  · rename_i qp2 rh2 typed heq
    split at h
    · simp at h
    · rename_i uri hpu
      split at h
      · rename_i hok
        refine ⟨qp2, rh2, typed, uri, heq, hpu, hok, ?_⟩
        injection h with h1
        injection h1 with h2
        exact h2.symm
      · simp at h

theorem mem_mkBuilt_headers {x : String × String} {r : Request} {uri : String}
    {merged : List (String × String)} (hx : x ∈ merged) :
    x ∈ (mkBuilt r uri merged).headers := by
  show x ∈ merged ++ bodyHeaders r
  exact List.mem_append_left _ hx

theorem lookupParam_some_mem :
    ∀ (ps : List (String × String)) (k v : String),
      lookupParam k ps = some v → (k, v) ∈ ps := by
  intro ps
  induction ps with
  | nil => intro k v h; simp [lookupParam] at h
  | cons kv rest ih =>
    intro k v h
    obtain ⟨k2, v2⟩ := kv
    by_cases hk : k2 = k
    · subst hk
      rw [lookupParam, if_pos rfl] at h
      injection h with hv
      subst hv
      exact List.mem_cons_self _ _
    · rw [lookupParam, if_neg hk] at h
      exact List.mem_cons_of_mem _ (ih k v h)

theorem wfToks_substToks (ps : List (String × String)) (ts : List PathTok)
    (hwf : wfToks ts = true)
    (hps : ∀ kv ∈ ps, braceFreeStr kv.1 = true ∧ braceFreeStr kv.2 = true) :
    wfToks (substToks ps ts) = true := by
  have hall := List.all_eq_true.mp hwf
  apply List.all_eq_true.mpr
  intro t ht
  obtain ⟨t0, ht0, rfl⟩ := List.mem_map.mp ht
  have htok := hall t0 ht0
  cases t0 with
  | lit s => simpa [substTokAll] using htok
  | ph k2 =>
    cases hl : lookupParam k2 ps with
    | none => simpa [substTokAll, hl] using htok
    | some v =>
      have hmem := lookupParam_some_mem ps k2 v hl
      have hv := (hps _ hmem).2
      simp [substTokAll, hl, tokWF, hv]

/-! ### Claim theorems -/

/-- A sample configuration with no credentials, used by concrete witnesses. -/
def exConf : Configuration where
  base_path := "http://x"
  user_agent := none
  api_key := none
  basic_auth := none
  oauth_access_token := none

/-- C1: body selection in `execute` follows a fixed priority.  For every
descriptor whose form-parameter set is non-empty, the request body is the
URL-form-encoding of the form parameters and the Content-Type header is
`application/x-www-form-urlencoded`, even when a serialized body is also
set; otherwise, if a serialized body is set, Content-Type is
`application/json` and Content-Length equals the body byte length and the
serialized body is sent; otherwise the body is empty and Content-Length
is 0. -/
theorem C1_body_selection (r : Request) (conf : Configuration) (req : BuiltRequest)
    (h : r.build conf = .ok (.ok req)) :
    (r.form_params ≠ [] →
      req.body = formUrlEncodePairs r.form_params ∧
      ("content-type", MIME_APPLICATION_WWW_FORM_URLENCODED) ∈ req.headers) ∧
    (r.form_params = [] → ∀ b, r.serialized_body = some b →
      req.body = b ∧
      ("content-type", MIME_APPLICATION_JSON) ∈ req.headers ∧
      ("content-length", toString (strBytes b).length) ∈ req.headers) ∧
    (r.form_params = [] → r.serialized_body = none →
      req.body = "" ∧ ("content-length", "0") ∈ req.headers) := by
  obtain ⟨qp2, rh2, typed, uri, happ, hpu, hok, hreq⟩ := build_ok_elim h
  subst hreq
  refine ⟨?_, ?_, ?_⟩
  · intro hform
    have hlen : r.form_params.length > 0 := List.length_pos.mpr hform
    constructor
    · show bodyString r = _
      simp [bodyString, hlen]
    · show _ ∈ mergedHeaders conf typed rh2 ++ bodyHeaders r
      apply List.mem_append_right
      simp [bodyHeaders, hlen]
  · intro hform b hb
    have hlen : ¬ r.form_params.length > 0 := by simp [hform]
    refine ⟨?_, ?_, ?_⟩
    · show bodyString r = b
      simp [bodyString, hlen, hb]
    · apply List.mem_append_right
      simp [bodyHeaders, hlen, hb]
    · apply List.mem_append_right
      simp [bodyHeaders, hlen, hb]
  · intro hform hb
    have hlen : ¬ r.form_params.length > 0 := by simp [hform]
    constructor
    · show bodyString r = ""
      simp [bodyString, hlen, hb]
    · apply List.mem_append_right
      simp [bodyHeaders, hlen, hb]

/-- A sample descriptor with one form parameter, for the C1 witness. -/
def exFormReq : Request := (Request.new "GET" "/").with_form_param "a" "b"

/-- The request that `exFormReq` assembles to. -/
def exFormBuilt : BuiltRequest where
  method := "GET"
  uri := "http://x/"
  headers := [("content-type", MIME_APPLICATION_WWW_FORM_URLENCODED)]
  body := "a=b"

/-- Concrete witness for C1: a descriptor with one form parameter builds a
form-encoded request. -/
theorem C1_body_selection_witness :
    exFormReq.build exConf = .ok (.ok exFormBuilt) ∧
    (exFormBuilt.body = formUrlEncodePairs exFormReq.form_params ∧
      ("content-type", MIME_APPLICATION_WWW_FORM_URLENCODED) ∈ exFormBuilt.headers) :=
  ⟨by rfl, (C1_body_selection exFormReq exConf exFormBuilt (by rfl)).1 (by decide)⟩

/-- C2 counterexample: with distinct keys `a` and `b` and the same
key-value set, substituting in the two possible orders gives different
resolved paths (because the value of `a` contains the placeholder of `b`),
and in the second order the resolved path still contains the literal
placeholder of `b` even though `b` has an entry.  This refutes both the
order-independence and the no-remaining-placeholder parts of the claim as
stated. -/
theorem C2_path_resolution_counterexample :
    resolvePath "/\x7ba\x7d" [("a", "\x7bb\x7d"), ("b", "X")]
      ≠ resolvePath "/\x7ba\x7d" [("b", "X"), ("a", "\x7bb\x7d")] ∧
    containsSubstr (resolvePath "/\x7ba\x7d" [("b", "X"), ("a", "\x7bb\x7d")])
      "\x7bb\x7d" = true := by
  constructor
  · decide
  · rfl

/-- C2 as amended: on well-formed path templates (brace-free literal
chunks and `\x7bkey\x7d` placeholders) with brace-free parameter keys and
values and distinct keys, path resolution substitutes exactly the matched
placeholders by their values (placeholders with no entry remain verbatim,
and no error is raised since resolution is total); the resolved path
contains no literal `\x7bk\x7d` for any substituted key `k`; and the
result is independent of the substitution order of the (distinct-key)
parameter list. -/
theorem C2_path_resolution (ts : List PathTok) (ps : List (String × String))
    (hwf : wfToks ts = true)
    (hps : ∀ kv ∈ ps, braceFreeStr kv.1 = true ∧ braceFreeStr kv.2 = true)
    (hnd : distinctKeys ps = true) :
    resolvePath (renderPath ts) ps = renderPath (substToks ps ts) ∧
    (∀ k v, lookupParam k ps = some v →
      containsSubstr (resolvePath (renderPath ts) ps) ("\x7b" ++ k ++ "\x7d") = false) ∧
    (∀ ps2, ps.Perm ps2 →
      resolvePath (renderPath ts) ps2 = resolvePath (renderPath ts) ps) := by
  have hmain := resolvePath_substToks ps ts hwf hps
  refine ⟨hmain, ?_, ?_⟩
  · intro k v hkv
    have hmem : (k, v) ∈ ps := lookupParam_some_mem ps k v hkv
    have hkbf : braceFreeStr k = true := (hps _ hmem).1
    rw [hmain]
    show containsSub (renderToks (substToks ps ts)) (("\x7b" ++ k ++ "\x7d").data) = false
    rw [pat_data]
    apply containsSub_render_none k hkbf
    · exact wfToks_substToks ps ts hwf hps
    · intro t ht
      obtain ⟨t0, ht0, rfl⟩ := List.mem_map.mp ht
      cases t0 with
      | lit s => simp [substTokAll]
      | ph k2 =>
        cases hl : lookupParam k2 ps with
        | some v2 => simp [substTokAll, hl]
        | none =>
          simp only [substTokAll, hl]
          intro hcontra
          injection hcontra with hk2
          subst hk2
          rw [hl] at hkv
          exact Option.noConfusion hkv
  · intro ps2 hperm
    have hps2 : ∀ kv ∈ ps2, braceFreeStr kv.1 = true ∧ braceFreeStr kv.2 = true :=
      fun kv hkv => hps kv (hperm.mem_iff.mpr hkv)
    rw [resolvePath_substToks ps2 ts hwf hps2, hmain]
    show renderPath (ts.map (substTokAll ps2)) = renderPath (ts.map (substTokAll ps))
    congr 1
    apply List.map_congr_left
    intro t _
    cases t with
    | lit s => rfl
    | ph k =>
      show (match lookupParam k ps2 with
            | some v => PathTok.lit v
            | none => PathTok.ph k)
        = (match lookupParam k ps with
            | some v => PathTok.lit v
            | none => PathTok.ph k)
      rw [lookupParam_perm hperm (distinctKeys_pairwise ps hnd) k]

/-- Concrete witness for the amended C2: resolving `/pets/\x7bid\x7d/x`
with `id = 42` substitutes the placeholder token. -/
theorem C2_path_resolution_witness :
    distinctKeys [("id", "42")] = true ∧
    resolvePath (renderPath [.lit "/pets/", .ph "id", .lit "/x"]) [("id", "42")]
      = renderPath (substToks [("id", "42")] [.lit "/pets/", .ph "id", .lit "/x"]) :=
  ⟨by decide,
   (C2_path_resolution [.lit "/pets/", .ph "id", .lit "/x"] [("id", "42")]
      (by decide) (by decide) (by decide)).1⟩

/-- C3: response decoding branches on the no-return-type flag.  With
`no_return_type` set, any 2xx response (in particular one with an empty
body) decodes to the unit value without error and the body text is never
parsed; with the flag clear, an empty 2xx body fails with a `Serde`
(serialization) error, for every target-type decoder. -/
theorem C3_no_return_type_decoding (r : Request) (conf : Configuration)
    (req : BuiltRequest) (status : Nat)
    (hbuild : r.build conf = .ok (.ok req)) (hstatus : isSuccess status = true) :
    (r.no_return_type = true →
      ∀ body, r.execute conf unitFromJson status body = .ok (.ok ())) ∧
    (r.no_return_type = false →
      ∀ (U : Type) (dec : Json → Except String U),
        r.execute conf dec status ""
          = .ok (.error (.Serde "EOF while parsing a value"))) := by
  have hexec : ∀ (U : Type) (dec : Json → Except String U) (body : String),
      r.execute conf dec status body
        = .ok (handleResponse r.no_return_type dec status body) := by
    intro U dec body
    unfold Request.execute
    rw [hbuild]
  constructor
  · intro hnr body
    rw [hexec, hnr]
    unfold handleResponse
    rw [hstatus]
    rfl
  · intro hnr U dec
    rw [hexec, hnr]
    unfold handleResponse
    rw [hstatus]
    rfl

/-- A sample no-return-type descriptor, for the C3 witness. -/
def exNoRetReq : Request := (Request.new "GET" "/").returns_nothing

/-- The request that `exNoRetReq` assembles to. -/
def exEmptyBuilt : BuiltRequest where
  method := "GET"
  uri := "http://x/"
  headers := [("content-length", "0")]
  body := ""

/-- Concrete witness for C3: a no-return-type request with a 200 response
and empty body decodes to the unit value. -/
theorem C3_no_return_type_decoding_witness :
    isSuccess 200 = true ∧
    exNoRetReq.execute exConf unitFromJson 200 "" = .ok (.ok ()) :=
  ⟨by decide,
   (C3_no_return_type_decoding exNoRetReq exConf exEmptyBuilt 200
      (by rfl) (by decide)).1 (by rfl) ""⟩

/-- C4: for every non-2xx response, `execute` returns the API error
carrying the numeric status and the response body (raw, and structurally
parsed where possible), never a `Serde` (serialization) error; in
particular a 404 response with body `\x7b"message":"not found"\x7d`
yields the API error with status 404 and that parsed payload.  The
response is consumed once, so no retry occurs. -/
theorem C4_non_success_api_error (r : Request) (conf : Configuration)
    (req : BuiltRequest) (U : Type) (dec : Json → Except String U)
    (status : Nat) (body : String)
    (hbuild : r.build conf = .ok (.ok req)) (hstatus : isSuccess status = false) :
    r.execute conf dec status body
      = .ok (.error (.ApiError status (parseJson body).toOption body)) ∧
    (∀ msg, r.execute conf dec status body ≠ .ok (.error (.Serde msg))) ∧
    errorFromResponse 404 "\x7b\"message\":\"not found\"\x7d"
      = .ApiError 404 (some (.obj [("message", .str "not found")]))
          "\x7b\"message\":\"not found\"\x7d" := by
  have hexec : r.execute conf dec status body
      = .ok (handleResponse r.no_return_type dec status body) := by
    unfold Request.execute
    rw [hbuild]
  have hhr : handleResponse r.no_return_type dec status body
      = .error (.ApiError status (parseJson body).toOption body) := by
    unfold handleResponse
    rw [hstatus]
    rfl
  refine ⟨by rw [hexec, hhr], ?_, by rfl⟩
  intro msg hcontra
  rw [hexec, hhr] at hcontra
  simp at hcontra

/-- Concrete witness for C4: a 404 with a JSON error body yields the
parsed API error. -/
theorem C4_non_success_api_error_witness :
    isSuccess 404 = false ∧
    exNoRetReq.execute exConf unitFromJson 404 "\x7b\"message\":\"not found\"\x7d"
      = .ok (.error (.ApiError 404 (some (.obj [("message", .str "not found")]))
          "\x7b\"message\":\"not found\"\x7d")) := by
  refine ⟨by decide, ?_⟩
  rw [(C4_non_success_api_error exNoRetReq exConf exEmptyBuilt Unit unitFromJson 404
      "\x7b\"message\":\"not found\"\x7d" (by rfl) (by decide)).1]
  rfl

/-- C5 counterexample: when the serializer fails, `with_body_param` does
not propagate a serialization error to the caller — it panics (the code
calls `unwrap` on the `serde_json::to_string` result).  This refutes the
claim that the builder fails fast by returning an error and never
panics. -/
theorem C5_with_body_param_counterexample :
    (Request.new "GET" "/").with_body_param (.error "serialization failed")
      = PanicOr.panicked "serialization failed" := rfl

/-- C5 as amended: `with_body_param` serializes the value immediately and,
when the value cannot be encoded, aborts with a panic (it unwraps the
serializer result); it does not return a typed serialization error.  When
serialization succeeds the serialized text is stored as the body. -/
theorem C5_with_body_param_unwrap (r : Request) :
    (∀ msg, r.with_body_param (.error msg) = .panicked msg) ∧
    (∀ s, r.with_body_param (.ok s) = .ok { r with serialized_body := some s }) :=
  ⟨fun _ => rfl, fun _ => rfl⟩

/-- C6: ApiKey auth application.  With a configured key, the applied value
is the prefixed key when a prefix is configured and the bare key
otherwise; with `in_query` set and `in_header` clear, exactly one query
pair named `param_name` with that value is appended and the raw headers
are unchanged; with both flags set, both the query pair and a raw header
with the same value are added; with no configured key the auth step is
skipped without error. -/
theorem C6_api_key_auth (ak : ApiKey) (kc : ApiKeyConf) (conf conf2 : Configuration)
    (qp rh : List (String × String))
    (hk : conf.api_key = some kc) (hnone : conf2.api_key = none) :
    (ak.key kc.pfx kc.key
      = match kc.pfx with
        | some p => p ++ " " ++ kc.key
        | none => kc.key) ∧
    (ak.in_query = true → ak.in_header = false →
      applyAuth (.apiKey ak) conf qp rh
        = .ok (qp ++ [(ak.param_name, ak.key kc.pfx kc.key)], rh, [])) ∧
    (ak.in_query = true → ak.in_header = true →
      applyAuth (.apiKey ak) conf qp rh
        = .ok (qp ++ [(ak.param_name, ak.key kc.pfx kc.key)],
               hmInsert rh ak.param_name (ak.key kc.pfx kc.key), [])) ∧
    applyAuth (.apiKey ak) conf2 qp rh = .ok (qp, rh, []) := by
  refine ⟨?_, ?_, ?_, ?_⟩
  · cases hp : kc.pfx <;> simp [ApiKey.key, hp]
  · intro hq hh
    simp [applyAuth, hk, hq, hh]
  · intro hq hh
    simp [applyAuth, hk, hq, hh]
  · simp [applyAuth, hnone]

/-- Concrete witness for C6: an in-query api key with no prefix appends
one query pair. -/
theorem C6_api_key_auth_witness :
    applyAuth (.apiKey { in_header := false, in_query := true, param_name := "api_key" })
        { exConf with api_key := some { pfx := none, key := "K" } } [("q", "1")] []
      = .ok ([("q", "1"), ("api_key", "K")], [], []) :=
  (C6_api_key_auth
    { in_header := false, in_query := true, param_name := "api_key" }
    { pfx := none, key := "K" }
    { exConf with api_key := some { pfx := none, key := "K" } }
    exConf [("q", "1")] [] rfl rfl).2.1 rfl rfl

/-- C7: Basic auth encoding.  With a configured basic-auth credential the
string that is base64-encoded is the bare username when no password is
present and `username:password` when one is; the strongly-typed header set
becomes exactly `authorization : Basic <base64>`; concretely `"u"` encodes
to `dQ==` (not the encoding of `"u:"`) and `"u:p"` to `dTpw`; and in every
successfully assembled request with the Basic strategy the final header
list contains that Authorization header. -/
theorem C7_basic_auth_encoding (conf : Configuration) (u : String)
    (pw : Option String) (qp rh : List (String × String))
    (hb : conf.basic_auth = some (u, pw)) :
    applyAuth .basic conf qp rh
      = .ok (qp, rh,
          [("authorization",
            "Basic " ++ base64encode (strBytes (basicUserPassword u pw)))]) ∧
    basicUserPassword u none = u ∧
    basicUserPassword "u" (some "p") = "u:p" ∧
    base64encode (strBytes "u") = "dQ==" ∧
    base64encode (strBytes "u:p") = "dTpw" ∧
    (∀ (r : Request) (req : BuiltRequest), r.auth = .basic →
      r.build conf = .ok (.ok req) →
      ("authorization", "Basic " ++ base64encode (strBytes (basicUserPassword u pw)))
        ∈ req.headers) := by
  have hvalid := basic_header_valid (strBytes (basicUserPassword u pw))
  have happ : ∀ qp0 rh0 : List (String × String), applyAuth .basic conf qp0 rh0
      = .ok (qp0, rh0,
          [("authorization",
            "Basic " ++ base64encode (strBytes (basicUserPassword u pw)))]) := by
    intro qp0 rh0
    simp [applyAuth, hb, headerValueFromStr, hvalid, hmInsert]
  refine ⟨happ qp rh, rfl, rfl, by rfl, by rfl, ?_⟩
  intro r req hauth hbuild
  obtain ⟨qp2, rh2, typed, uri, happ2, hpu, hok, hreq⟩ := build_ok_elim hbuild
  rw [hauth, happ (qpInit r) (rhInit r)] at happ2
  injection happ2 with hp
  have htyped : typed
      = [("authorization",
          "Basic " ++ base64encode (strBytes (basicUserPassword u pw)))] :=
    (congrArg (fun t : List (String × String) × List (String × String) ×
        List (String × String) => t.2.2) hp).symm
  subst hreq
  apply mem_mkBuilt_headers
  show _ ∈ uaHeaders conf ++ typed ++ rh2.map (fun kv => (lowerHeaderName kv.1, kv.2))
  apply List.mem_append_left
  apply List.mem_append_right
  rw [htyped]
  exact List.mem_cons_self _ _

/-- Concrete witness for C7: username `u` with no password yields
`Authorization: Basic dQ==`. -/
theorem C7_basic_auth_encoding_witness :
    applyAuth .basic { exConf with basic_auth := some ("u", none) } [] []
      = .ok ([], [], [("authorization", "Basic dQ==")]) :=
  (C7_basic_auth_encoding { exConf with basic_auth := some ("u", none) }
    "u" none [] [] rfl).1

/-- C8 counterexample: a descriptor that writes the `authorization` header
both through Basic auth (strongly typed) and through a raw header
parameter produces a final request carrying TWO values for that name: the
`http` request builder appends headers, it does not overwrite, so the
"later write overwrites, exactly one value per name" part of the claim is
false. -/
theorem C8_header_merge_counterexample :
    (match (((Request.new "GET" "/").with_header_param "authorization" "X").with_auth
          .basic).build
        { base_path := "http://x", user_agent := none, api_key := none,
          basic_auth := some ("u", none), oauth_access_token := none } with
      | .ok (.ok req) =>
        (req.headers.filter (fun kv => kv.1 == "authorization")).length == 2
      | _ => false) = true := by rfl

/-- C8 as amended: header application in `execute` does follow the claimed
order — the user-agent header (if configured) first, then the
strongly-typed headers (Authorization), then the raw name/value headers
(names lowercased), then the body-derived headers — but each application
appends: a name written more than once keeps every written value in that
order, and the later write does not overwrite the earlier one. -/
theorem C8_header_merge_order (r : Request) (conf : Configuration)
    (req : BuiltRequest) (h : r.build conf = .ok (.ok req)) :
    ∃ qp2 rh2 typed,
      applyAuth r.auth conf (qpInit r) (rhInit r) = .ok (qp2, rh2, typed) ∧
      req.headers
        = uaHeaders conf ++ typed
            ++ rh2.map (fun kv => (lowerHeaderName kv.1, kv.2))
            ++ bodyHeaders r := by
  obtain ⟨qp2, rh2, typed, uri, happ, hpu, hok, hreq⟩ := build_ok_elim h
  refine ⟨qp2, rh2, typed, happ, ?_⟩
  subst hreq
  rfl

/-- The duplicate-authorization descriptor of the C8 counterexample. -/
def exC8Req : Request :=
  ((Request.new "GET" "/").with_header_param "authorization" "X").with_auth .basic

/-- The request that `exC8Req` assembles to: two authorization values. -/
def exC8Built : BuiltRequest where
  method := "GET"
  uri := "http://x/"
  headers := [("authorization", "Basic dQ=="), ("authorization", "X"),
              ("content-length", "0")]
  body := ""

/-- Concrete witness for the amended C8: the duplicate-authorization
request of the counterexample decomposes into the claimed order, with both
authorization values present. -/
theorem C8_header_merge_order_witness :
    exC8Req.build { exConf with basic_auth := some ("u", none) }
      = .ok (.ok exC8Built) ∧
    ∃ qp2 rh2 typed,
      applyAuth exC8Req.auth { exConf with basic_auth := some ("u", none) }
          (qpInit exC8Req) (rhInit exC8Req) = .ok (qp2, rh2, typed) ∧
      exC8Built.headers
        = uaHeaders { exConf with basic_auth := some ("u", none) } ++ typed
            ++ rh2.map (fun kv => (lowerHeaderName kv.1, kv.2))
            ++ bodyHeaders exC8Req :=
  ⟨by rfl,
   C8_header_merge_order exC8Req { exConf with basic_auth := some ("u", none) }
     exC8Built (by rfl)⟩

/-- C9: builder last-write-wins.  Chaining `with_body_param` twice (with
the first serialization succeeding) equals applying only the second call;
writing the same key twice in any of the query/path/form/header maps
keeps only the last value; and for distinct keys the two insertion orders
give extensionally equal maps. -/
theorem C9_builder_last_write_wins (r : Request) (k1 k2 v1 v2 : String)
    (hk : k1 ≠ k2) :
    (∀ s sb, (r.with_body_param (.ok s)).andThen (fun r2 => r2.with_body_param sb)
        = r.with_body_param sb) ∧
    (∀ k a b, (r.with_query_param k a).with_query_param k b
        = r.with_query_param k b) ∧
    (∀ k a b, (r.with_path_param k a).with_path_param k b
        = r.with_path_param k b) ∧
    (∀ k a b, (r.with_form_param k a).with_form_param k b
        = r.with_form_param k b) ∧
    (∀ k a b, (r.with_header_param k a).with_header_param k b
        = r.with_header_param k b) ∧
    (∀ x, lookupParam x
          (((r.with_query_param k1 v1).with_query_param k2 v2).query_params)
        = lookupParam x
          (((r.with_query_param k2 v2).with_query_param k1 v1).query_params)) ∧
    (∀ x, lookupParam x
          (((r.with_path_param k1 v1).with_path_param k2 v2).path_params)
        = lookupParam x
          (((r.with_path_param k2 v2).with_path_param k1 v1).path_params)) ∧
    (∀ x, lookupParam x
          (((r.with_form_param k1 v1).with_form_param k2 v2).form_params)
        = lookupParam x
          (((r.with_form_param k2 v2).with_form_param k1 v1).form_params)) ∧
    (∀ x, lookupParam x
          (((r.with_header_param k1 v1).with_header_param k2 v2).header_params)
        = lookupParam x
          (((r.with_header_param k2 v2).with_header_param k1 v1).header_params)) := by
  refine ⟨?_, ?_, ?_, ?_, ?_, ?_, ?_, ?_, ?_⟩
  · intro s sb
    cases sb with
    | error e => rfl
    | ok s2 => rfl
  · intro k a b
    show ({ r with query_params := hmInsert (hmInsert r.query_params k a) k b } : Request)
      = { r with query_params := hmInsert r.query_params k b }
    rw [hmInsert_hmInsert_same]
  · intro k a b
    show ({ r with path_params := hmInsert (hmInsert r.path_params k a) k b } : Request)
      = { r with path_params := hmInsert r.path_params k b }
    rw [hmInsert_hmInsert_same]
  · intro k a b
    show ({ r with form_params := hmInsert (hmInsert r.form_params k a) k b } : Request)
      = { r with form_params := hmInsert r.form_params k b }
    rw [hmInsert_hmInsert_same]
  · intro k a b
    show ({ r with header_params := hmInsert (hmInsert r.header_params k a) k b } : Request)
      = { r with header_params := hmInsert r.header_params k b }
    rw [hmInsert_hmInsert_same]
  · intro x
    exact lookupParam_hmInsert_swap r.query_params k1 k2 v1 v2 x hk
  · intro x
    exact lookupParam_hmInsert_swap r.path_params k1 k2 v1 v2 x hk
  · intro x
    exact lookupParam_hmInsert_swap r.form_params k1 k2 v1 v2 x hk
  · intro x
    exact lookupParam_hmInsert_swap r.header_params k1 k2 v1 v2 x hk

/-- Concrete witness for C9: double body write keeps the second body, and
the two insertion orders of distinct query keys agree on lookup. -/
theorem C9_builder_last_write_wins_witness :
    ("a" : String) ≠ "b" ∧
    ((Request.new "GET" "/").with_body_param (.ok "1")).andThen
        (fun r2 => r2.with_body_param (.ok "2"))
      = (Request.new "GET" "/").with_body_param (.ok "2") ∧
    lookupParam "a"
        ((((Request.new "GET" "/").with_query_param "a" "1").with_query_param
          "b" "2").query_params)
      = lookupParam "a"
        ((((Request.new "GET" "/").with_query_param "b" "2").with_query_param
          "a" "1").query_params) :=
  ⟨by decide,
   (C9_builder_last_write_wins (Request.new "GET" "/") "a" "b" "1" "2"
      (by decide)).1 "1" (.ok "2"),
   (C9_builder_last_write_wins (Request.new "GET" "/") "a" "b" "1" "2"
      (by decide)).2.2.2.2.2.1 "a"⟩

/-- C10: for some configurations `execute` panics instead of returning a
typed error: with the Bearer/OAuth strategy and a configured access token
whose `Bearer`-prefixed form is not a valid HTTP header value (for
example, a token containing a newline), the `HeaderValue::from_str`
result is unwrapped and execution aborts with a panic rather than
yielding any `Error` variant. -/
theorem C10_oauth_invalid_header_panics (U : Type) (r : Request)
    (conf : Configuration) (tok : String) (dec : Json → Except String U)
    (status : Nat) (body : String)
    (hauth : r.auth = .oauth) (htok : conf.oauth_access_token = some tok)
    (hbad : isValidHeaderValueStr ("Bearer " ++ tok) = false) :
    r.execute conf dec status body = .panicked unwrapErrMsg := by
  have happ : applyAuth r.auth conf (qpInit r) (rhInit r)
      = .panicked unwrapErrMsg := by
    rw [hauth]
    simp [applyAuth, htok, headerValueFromStr, hbad]
  have hbuild : r.build conf = .panicked unwrapErrMsg := by
    unfold Request.build
    rw [happ]
  unfold Request.execute
  rw [hbuild]

/-- Concrete witness for C10: a token containing a newline makes `execute`
panic. -/
theorem C10_oauth_invalid_header_panics_witness :
    isValidHeaderValueStr ("Bearer a\nb") = false ∧
    ((Request.new "GET" "/").with_auth .oauth).execute
        { exConf with oauth_access_token := some "a\nb" } unitFromJson 200 ""
      = .panicked unwrapErrMsg :=
  ⟨by decide,
   C10_oauth_invalid_header_panics Unit ((Request.new "GET" "/").with_auth .oauth)
     { exConf with oauth_access_token := some "a\nb" } "a\nb" unitFromJson 200 ""
     rfl rfl (by decide)⟩
